import Mathlib

/-!
Verification of the marker-annotation parser and the extraction
orchestrator of `src/App.tsx`.

The parser (`renderText` in `ResultDisplay`) is embedded over `List Char`
with JavaScript string semantics made explicit:
`String.prototype.split('\n')` (which yields `[""]` on the empty string),
`String.prototype.startsWith(c)` for a one-character string `c`,
`String.prototype.substring(1)` and `String.prototype.trim()`.

The orchestrator (`App`: `handleImageSelect`, `handleExtractText`, the
trigger button with `disabled={isLoading}`) is embedded as a small event
system over an explicit state record, with in-flight requests carried in
the state so that asynchronous resolution order can be reasoned about.
-/

/-- One entry of the hardcoded `LEGEND_ITEMS` table of `src/App.tsx`. -/
structure LegendItem where
  char : Char
  description : String
  color : String
deriving DecidableEq

/-- The `LEGEND_ITEMS` constant of `src/App.tsx` (lines 60-68), verbatim. -/
def LEGEND_ITEMS : List LegendItem :=
  [ ⟨'#', "نص داخل فقاعة كلام عادية", "text-cyan-400"⟩,
    ⟨'$', "نص داخل فقاعة تفكير أو همس", "text-purple-400"⟩,
    ⟨'&', "نص داخل مربع السرد", "text-amber-400"⟩,
    ⟨'(', "مؤثرات صوتية (SFX)", "text-orange-400"⟩,
    ⟨')', "نص داخل فقاعة صراخ", "text-red-400"⟩,
    ⟨'/', "نص داخل فقاعة نظام أو شاشة معلومات", "text-green-400"⟩,
    ⟨'_', "نص آخر غير مصنف", "text-gray-400"⟩ ]

/-- The characters of the seven legend entries, in legend order. -/
def legendChars : List Char := ['#', '$', '&', '(', ')', '/', '_']

/-- JavaScript `text.split('\n')` on the character list of `text`: the
empty input yields `[[]]` (JS `"".split('\n')` is `[""]`), and every
newline opens a new segment, so `"a\n"` yields two segments. -/
def jsSplit (sep : Char) : List Char → List (List Char)
  | [] => [[]]
  | c :: rest =>
    match jsSplit sep rest with
    | [] => [[c]]
    | l :: ls => if c = sep then [] :: l :: ls else (c :: l) :: ls

/-- JavaScript `line.startsWith(c)` for a one-character string `c`:
true iff the line is nonempty and its first character is `c`. -/
def startsWithChar (line : List Char) (c : Char) : Bool :=
  match line with
  | [] => false
  | x :: _ => x = c

/-- JavaScript `s.trim()`: drop leading and trailing whitespace. -/
def jsTrim (l : List Char) : List Char :=
  ((l.dropWhile Char.isWhitespace).reverse.dropWhile Char.isWhitespace).reverse

/-- The structured content of one rendered line: the marker character of
the matched legend entry (shown in the marker `span`), or `none` for an
unmatched line, together with the displayed text. -/
structure ClassifiedLine where
  marker : Option Char
  text : List Char
deriving DecidableEq

/-- The per-line body of `renderText` (`src/App.tsx` lines 101-112),
generalised over the legend list so that order-(in)dependence can be
stated: `const marker = legend.find(item => line.startsWith(item.char))`;
on a match the rendered text is `line.substring(1).trim()`, otherwise the
line is rendered unchanged. -/
def classifyLineWith (legend : List LegendItem) (line : List Char) : ClassifiedLine :=
  match legend.find? (fun item => startsWithChar line item.char) with
  | some m => { marker := some m.char, text := jsTrim line.tail }
  | none => { marker := none, text := line }

/-- The per-line classification exactly as the code runs it, with the
`find` scanning `LEGEND_ITEMS` in order. -/
def classifyLine (line : List Char) : ClassifiedLine :=
  classifyLineWith LEGEND_ITEMS line

/-- `renderText` of `src/App.tsx` (lines 100-113):
`text.split('\n').map(line => ...)`. -/
def renderText (text : String) : List ClassifiedLine :=
  (jsSplit '\n' text.data).map classifyLine

/-- Modelled from the spec: the matcher as §3/§4.2 word it, an exact
first-character lookup in the legend's marker set rather than an ordered
scan, used as the refinement target of C8. -/
def classifyLineLookup : List Char → ClassifiedLine
  | [] => { marker := none, text := [] }
  | c :: rest =>
    match LEGEND_ITEMS.find? (fun item => item.char = c) with
    | some m => { marker := some m.char, text := jsTrim rest }
    | none => { marker := none, text := c :: rest }

/-- `List.find?` only depends on the values of the predicate on the
list's members. -/
theorem find?_ext {α : Type} (p q : α → Bool) (l : List α)
    (h : ∀ a ∈ l, p a = q a) : l.find? p = l.find? q := by
  induction l with
  | nil => rfl
  | cons x xs ih =>
    have hx := h x (List.mem_cons_self x xs)
    have hxs : ∀ a ∈ xs, p a = q a := fun a ha => h a (List.mem_cons_of_mem x ha)
    simp only [List.find?]
    rw [hx, ih hxs]

/-- On two lists that are permutations of one another, `List.find?`
agrees whenever at most one member satisfies the predicate. -/
theorem find?_perm_of_subsingleton {α : Type} (p : α → Bool) (l l' : List α)
    (hperm : List.Perm l l')
    (u : ∀ a ∈ l, ∀ b ∈ l, p a = true → p b = true → a = b) :
    l.find? p = l'.find? p := by
  cases hl : l.find? p with
  | none =>
    cases hl' : l'.find? p with
    | none => rfl
    | some b =>
      have hb : p b = true := List.find?_some hl'
      have hbm : b ∈ l := hperm.mem_iff.mpr (List.mem_of_find?_eq_some hl')
      have := List.find?_eq_none.mp hl b hbm
      simp [hb] at this
  | some a =>
    have ha : p a = true := List.find?_some hl
    have ham : a ∈ l := List.mem_of_find?_eq_some hl
    cases hl' : l'.find? p with
    | none =>
      have := List.find?_eq_none.mp hl' a (hperm.mem_iff.mp ham)
      simp [ha] at this
    | some b =>
      have hb : p b = true := List.find?_some hl'
      have hbm : b ∈ l := hperm.mem_iff.mpr (List.mem_of_find?_eq_some hl')
      exact congrArg some (u a ham b hbm ha hb)

/-- No two legend entries share a marker character. -/
theorem legend_char_injective :
    ∀ a ∈ LEGEND_ITEMS, ∀ b ∈ LEGEND_ITEMS, a.char = b.char → a = b := by
  decide

/-- A line whose head is not a legend character matches no legend entry. -/
theorem find?_eq_none_of_head_notin (line : List Char)
    (h : ∀ c, line.head? = some c → c ∉ legendChars) :
    LEGEND_ITEMS.find? (fun item => startsWithChar line item.char) = none := by
  apply List.find?_eq_none.mpr
  intro it hit
  cases line with
  | nil => simp [startsWithChar]
  | cons c rest =>
    have hc : c ∉ legendChars := h c rfl
    simp only [startsWithChar]
    simp only [legendChars, List.mem_cons, List.not_mem_nil, or_false] at hc
    push_neg at hc
    fin_cases hit <;> simp [LEGEND_ITEMS] <;> tauto

/-- C1: the claim predicts that a line beginning with an underscore is
classified as unmarked with its text untouched; the code's `find` scans
all of `LEGEND_ITEMS`, whose last entry is `'_'`, so `"_Random sfx"` is
matched structurally: it gets marker `'_'` and trimmed tail text. -/
theorem C1_counterexample :
    classifyLine ("_Random sfx".data) ≠ { marker := none, text := "_Random sfx".data } ∧
    classifyLine ("_Random sfx".data) = { marker := some '_', text := "Random sfx".data } := by
  constructor
  · decide
  · decide

/-- C1 (amended): for every input line whose first character is not one
of the SEVEN legend characters `#$&()/_`, the parser classifies it as
unmarked and outputs the original line untrimmed; a line beginning with
`'_'` IS matched structurally, because `'_'` is an ordinary entry of the
scanned legend table, not a display-only label. -/
theorem C1_thm (line : List Char)
    (h : ∀ c, line.head? = some c → c ∉ legendChars) :
    classifyLine line = { marker := none, text := line } := by
  unfold classifyLine classifyLineWith
  rw [find?_eq_none_of_head_notin line h]

/-- Witness for C1 at the concrete line `"plain line"`. -/
theorem C1_witness :
    (∀ c, ("plain line".data).head? = some c → c ∉ legendChars) ∧
    classifyLine ("plain line".data) = { marker := none, text := "plain line".data } :=
  ⟨by decide, C1_thm ("plain line".data) (by decide)⟩

/-- C3: the claim predicts an empty transcript parses to zero lines, but
JavaScript `"".split('\n')` is `[""]`, so `renderText ""` yields one
classified line, not zero. -/
theorem C3_counterexample :
    renderText "" ≠ ([] : List ClassifiedLine) := by
  decide

/-- C3 (amended): parsing the empty transcript yields exactly one
`ClassifiedLine`, the unmarked empty line, because splitting the empty
string on newline yields one empty segment; the "no results" display is
produced by the consumer, which renders `renderText` output only when the
extracted text is nonempty. -/
theorem C3_thm :
    renderText "" = [{ marker := none, text := [] }] := by
  decide

/-- C4: for every input string, the parser splits it on newline and
produces exactly one `ClassifiedLine` per segment, in order (so it is
length-preserving), and an empty segment maps to the unmarked line with
empty text. -/
theorem C4_thm (text : String) :
    (renderText text).length = (jsSplit '\n' text.data).length ∧
    (∀ i : Nat, (renderText text)[i]? = ((jsSplit '\n' text.data)[i]?).map classifyLine) ∧
    classifyLine [] = { marker := none, text := [] } := by
  refine ⟨?_, ?_, by decide⟩
  · simp [renderText]
  · intro i
    simp [renderText, List.getElem?_map]

/-- C5: for every line whose first character is a legend marker, the
output text is the line with exactly its first character removed and
leading/trailing whitespace trimmed; in particular a line that is only a
marker character yields empty text. -/
theorem C5_thm (c : Char) (rest : List Char) (h : c ∈ legendChars) :
    (classifyLine (c :: rest)).marker = some c ∧
    (classifyLine (c :: rest)).text = jsTrim rest ∧
    (classifyLine [c]).text = [] := by
  simp only [legendChars, List.mem_cons, List.not_mem_nil, or_false] at h
  rcases h with h | h | h | h | h | h | h <;>
    subst h <;>
    refine ⟨rfl, rfl, by decide⟩

/-- Witness for C5 at the concrete line `"#Hello there  "`. -/
theorem C5_witness :
    '#' ∈ legendChars ∧
    ((classifyLine ('#' :: "Hello there  ".data)).marker = some '#' ∧
     (classifyLine ('#' :: "Hello there  ".data)).text = jsTrim ("Hello there  ".data) ∧
     (classifyLine ['#']).text = []) :=
  ⟨by decide, C5_thm '#' ("Hello there  ".data) (by decide)⟩

/-- A successful JavaScript `startsWith` with a one-character argument
determines the head of the line. -/
theorem startsWithChar_eq_true {line : List Char} {ch : Char}
    (h : startsWithChar line ch = true) : line.head? = some ch := by
  cases line with
  | nil => simp [startsWithChar] at h
  | cons c rest =>
    simp only [startsWithChar, decide_eq_true_eq] at h
    simp [h]

/-- The ordered scan of the code agrees with the spec's exact
first-character lookup on every line. -/
theorem classifyLine_eq_lookup (line : List Char) :
    classifyLine line = classifyLineLookup line := by
  cases line with
  | nil => decide
  | cons c rest =>
    unfold classifyLine classifyLineWith classifyLineLookup
    rw [find?_ext (fun item => startsWithChar (c :: rest) item.char)
      (fun item => item.char = c) LEGEND_ITEMS
      (by intro a _; simp [startsWithChar, eq_comm])]
    rfl

/-- C8: the legend's marker characters are pairwise distinct, so the
code's ordered scan of `LEGEND_ITEMS` (first entry whose marker the line
starts with) matches at most one entry per line; consequently it computes
the same classification for any permutation of the legend, and is
equivalent to the spec's exact first-character lookup. -/
theorem C8_thm (legend : List LegendItem) (line : List Char)
    (hperm : List.Perm legend LEGEND_ITEMS) :
    (LEGEND_ITEMS.map LegendItem.char).Nodup ∧
    classifyLineWith legend line = classifyLine line ∧
    classifyLine line = classifyLineLookup line := by
  refine ⟨by decide, ?_, classifyLine_eq_lookup line⟩
  have u : ∀ a ∈ legend, ∀ b ∈ legend,
      startsWithChar line a.char = true → startsWithChar line b.char = true → a = b := by
    intro a ha b hb pa pb
    have ha2 : a ∈ LEGEND_ITEMS := hperm.mem_iff.mp ha
    have hb2 : b ∈ LEGEND_ITEMS := hperm.mem_iff.mp hb
    have h1 := startsWithChar_eq_true pa
    have h2 := startsWithChar_eq_true pb
    rw [h1] at h2
    exact legend_char_injective a ha2 b hb2 (Option.some.inj h2)
  unfold classifyLine classifyLineWith
  rw [find?_perm_of_subsingleton (fun item => startsWithChar line item.char)
    legend LEGEND_ITEMS hperm u]

/-- Witness for C8: the reversed legend (a nontrivial permutation)
classifies `"#Hi"` exactly as the code's legend order does. -/
theorem C8_witness :
    List.Perm LEGEND_ITEMS.reverse LEGEND_ITEMS ∧
    ((LEGEND_ITEMS.map LegendItem.char).Nodup ∧
     classifyLineWith LEGEND_ITEMS.reverse ("#Hi".data) = classifyLine ("#Hi".data) ∧
     classifyLine ("#Hi".data) = classifyLineLookup ("#Hi".data)) :=
  ⟨List.reverse_perm LEGEND_ITEMS,
   C8_thm LEGEND_ITEMS.reverse ("#Hi".data) (List.reverse_perm LEGEND_ITEMS)⟩

/-- The validation message set by `handleExtractText` when no image is
selected (`src/App.tsx` line 172). -/
def validationMsg : String := "الرجاء اختيار صورة أولاً."

/-- The static failure message set in the `catch` block of
`handleExtractText` (`src/App.tsx` line 187). -/
def extractionErrorMsg : String := "حدث خطأ أثناء استخراج النص. الرجاء المحاولة مرة أخرى."

/-- The state of the `App` component (`src/App.tsx` lines 157-161):
the five `useState` slots, plus the multiset of in-flight extraction
requests so that asynchronous resolution can be modelled. Images and
requests are identified by numbers; a pending request records the image
it was triggered for. -/
structure AppState where
  imageFile : Option Nat
  imageUrl : Option Nat
  extractedText : String
  isLoading : Bool
  error : Option String
  pending : List Nat
deriving DecidableEq

/-- The initial `useState` values: no image, empty text, not loading,
no error, and no request in flight. -/
def initialState : AppState :=
  { imageFile := none, imageUrl := none, extractedText := "", isLoading := false,
    error := none, pending := [] }

/-- An externally visible call made by the orchestrator: `fileToBase64`
followed by `extractTextFromImage` for the given image. -/
inductive Effect where
  | encodeAndExtract (img : Nat)
deriving DecidableEq

/-- `handleImageSelect` (`src/App.tsx` lines 163-168): store the file,
create a preview URL, clear the extracted text and the error. It touches
neither `isLoading` nor any in-flight request. -/
def handleImageSelect (s : AppState) (img : Nat) : AppState :=
  { s with imageFile := some img, imageUrl := some img, extractedText := "", error := none }

/-- The synchronous part of `handleExtractText` (`src/App.tsx` lines
170-179): with no image selected it sets the validation message and
returns without doing anything else; otherwise it enters loading, clears
error and text, and issues the encode-then-extract call, which becomes a
pending request. -/
def handleExtractText (s : AppState) : AppState × List Effect :=
  match s.imageFile with
  | none => ({ s with error := some validationMsg }, [])
  | some img =>
    ({ s with
        isLoading := true
        error := none
        extractedText := ""
        pending := s.pending ++ [img] },
     [Effect.encodeAndExtract img])

/-- The user-visible and asynchronous events that drive the `App`
component: selecting an image, pressing the extract button, and the
resolution (fulfilment or rejection) of a pending request. A rejection
carries the underlying error detail, which the code only logs. -/
inductive Event where
  | select (img : Nat)
  | trigger
  | resolveOk (req : Nat) (result : String)
  | resolveErr (req : Nat) (detail : String)

/-- One step of the `App` component. `select` is always possible; the
extract button exists only when a preview URL is set and carries
`disabled={isLoading}` (`src/App.tsx` lines 208-213); a resolution is
possible only for a request actually in flight. Resolution re-enacts the
continuation of `handleExtractText` (lines 180-190): fulfilment stores
the result text, rejection stores the static error message — there is no
check that the request is still the relevant one — and the `finally`
clause clears the loading flag. -/
def step (s : AppState) : Event → Option AppState
  | Event.select img => some (handleImageSelect s img)
  | Event.trigger =>
    if s.imageUrl = none then none
    else if s.isLoading then none
    else some (handleExtractText s).1
  | Event.resolveOk req r =>
    if req ∈ s.pending then
      some { s with pending := s.pending.erase req, extractedText := r, isLoading := false }
    else none
  | Event.resolveErr req _ =>
    if req ∈ s.pending then
      some { s with
              pending := s.pending.erase req
              error := some extractionErrorMsg
              isLoading := false }
    else none

/-- The states the component can actually be in, starting from the
initial render. -/
inductive Reachable : AppState → Prop
  | start : Reachable initialState
  | next (s : AppState) (e : Event) (s' : AppState) :
      Reachable s → step s e = some s' → Reachable s'

/-- Run a list of events from a state, ignoring events that are not
enabled (a disabled button cannot be pressed, a request cannot resolve
twice). -/
def runEvents (s : AppState) : List Event → AppState
  | [] => s
  | e :: es => runEvents ((step s e).getD s) es

/-- The inductive invariant of the component: at most one request is in
flight, the loading flag is set exactly while one is, and the displayed
text is empty while loading. -/
def StateInv (s : AppState) : Prop :=
  s.pending.length ≤ 1 ∧
  (s.isLoading = true ↔ s.pending ≠ []) ∧
  (s.isLoading = true → s.extractedText = "")

/-- A list of length at most one that contains `a` is exactly `[a]`. -/
theorem pending_singleton {l : List Nat} {a : Nat} (h1 : l.length ≤ 1) (hm : a ∈ l) :
    l = [a] := by
  cases l with
  | nil => cases hm
  | cons x xs =>
    cases xs with
    | nil =>
      rw [List.mem_singleton] at hm
      subst hm
      rfl
    | cons y ys =>
      simp only [List.length_cons] at h1
      omega

/-- The invariant holds on the initial render. -/
theorem stateInv_initial : StateInv initialState := by
  unfold StateInv initialState
  refine ⟨by decide, by simp, by simp⟩

/-- Every enabled event preserves the invariant. -/
theorem stateInv_step (s : AppState) (e : Event) (s' : AppState)
    (hs : StateInv s) (h : step s e = some s') : StateInv s' := by
  obtain ⟨h1, h2, h3⟩ := hs
  cases e with
  | select img =>
    simp only [step] at h
    injection h with h
    subst h
    exact ⟨h1, h2, fun _ => rfl⟩
  | trigger =>
    simp only [step] at h
    by_cases hu : s.imageUrl = none
    · rw [if_pos hu] at h
      exact Option.noConfusion h
    · rw [if_neg hu] at h
      by_cases hl : s.isLoading = true
      · rw [if_pos hl] at h
        exact Option.noConfusion h
      · rw [if_neg hl] at h
        injection h with h
        subst h
        have hp : s.pending = [] := by
          by_contra hne
          exact hl (h2.mpr hne)
        cases hf : s.imageFile with
        | none =>
          refine ⟨?_, ?_, ?_⟩ <;> simp only [handleExtractText, hf]
          · exact h1
          · exact h2
          · exact h3
        | some img =>
          refine ⟨?_, ?_, ?_⟩ <;> simp only [handleExtractText, hf]
          · simp [hp]
          · simp [hp]
          · trivial
  | resolveOk req r =>
    simp only [step] at h
    by_cases hm : req ∈ s.pending
    · rw [if_pos hm] at h
      injection h with h
      subst h
      have hp : s.pending = [req] := pending_singleton h1 hm
      refine ⟨?_, ?_, ?_⟩ <;> simp [hp]
    · rw [if_neg hm] at h
      exact Option.noConfusion h
  | resolveErr req d =>
    simp only [step] at h
    by_cases hm : req ∈ s.pending
    · rw [if_pos hm] at h
      injection h with h
      subst h
      have hp : s.pending = [req] := pending_singleton h1 hm
      refine ⟨?_, ?_, ?_⟩ <;> simp [hp]
    · rw [if_neg hm] at h
      exact Option.noConfusion h

/-- Every reachable state of the component satisfies the invariant. -/
theorem stateInv_reachable (s : AppState) (h : Reachable s) : StateInv s := by
  induction h with
  | start => exact stateInv_initial
  | next s e s' hr hstep ih => exact stateInv_step s e s' ih hstep

/-- C9: selecting a new image, from any state, clears the previous
extracted text to empty and the previous error to none, and makes the
new image the current selection (with its preview URL); the loading flag
and any in-flight request are untouched. -/
theorem C9_thm (s : AppState) (img : Nat) :
    (handleImageSelect s img).extractedText = "" ∧
    (handleImageSelect s img).error = none ∧
    (handleImageSelect s img).imageFile = some img ∧
    (handleImageSelect s img).imageUrl = some img ∧
    (handleImageSelect s img).isLoading = s.isLoading ∧
    (handleImageSelect s img).pending = s.pending :=
  ⟨rfl, rfl, rfl, rfl, rfl, rfl⟩

/-- C6: triggering extraction with no image selected leaves the loading
flag, the pending requests and the displayed text exactly as they were —
in particular it never enters the loading state — sets the non-empty
user-facing validation message, and invokes neither the encoder nor the
external extraction capability. -/
theorem C6_thm (s : AppState) (h : s.imageFile = none) :
    (handleExtractText s).1.isLoading = s.isLoading ∧
    (handleExtractText s).1.error = some validationMsg ∧
    validationMsg ≠ "" ∧
    (handleExtractText s).2 = [] ∧
    (handleExtractText s).1.pending = s.pending ∧
    (handleExtractText s).1.extractedText = s.extractedText := by
  refine ⟨?_, ?_, by decide, ?_, ?_, ?_⟩ <;> simp only [handleExtractText, h]

/-- Witness for C6 at the initial state, which has no image selected. -/
theorem C6_witness :
    initialState.imageFile = none ∧
    ((handleExtractText initialState).1.isLoading = initialState.isLoading ∧
     (handleExtractText initialState).1.error = some validationMsg ∧
     validationMsg ≠ "" ∧
     (handleExtractText initialState).2 = [] ∧
     (handleExtractText initialState).1.pending = initialState.pending ∧
     (handleExtractText initialState).1.extractedText = initialState.extractedText) :=
  ⟨rfl, C6_thm initialState rfl⟩

/-- A concrete reachable state with one extraction request in flight:
the user selected image `0` and pressed the extract button. -/
def loadingState : AppState :=
  { imageFile := some 0, imageUrl := some 0, extractedText := "", isLoading := true,
    error := none, pending := [0] }

/-- `loadingState` is reached by selecting image `0` and triggering. -/
theorem loadingState_reachable : Reachable loadingState :=
  Reachable.next _ Event.trigger _
    (Reachable.next _ (Event.select 0) _ Reachable.start rfl) rfl

/-- C10: in every reachable state, at most one extraction request is in
flight, and while the loading flag is set the extract button is disabled,
so no further request can be started by the trigger. -/
theorem C10_thm (s : AppState) (h : Reachable s) :
    s.pending.length ≤ 1 ∧
    (s.isLoading = true → step s Event.trigger = none) := by
  obtain ⟨h1, _, _⟩ := stateInv_reachable s h
  refine ⟨h1, ?_⟩
  intro hl
  simp [step, hl]

/-- Witness for C10 at the concrete in-flight state. -/
theorem C10_witness :
    Reachable loadingState ∧
    (loadingState.pending.length ≤ 1 ∧
     (loadingState.isLoading = true → step loadingState Event.trigger = none)) :=
  ⟨loadingState_reachable, C10_thm loadingState loadingState_reachable⟩

/-- C7: when the single in-flight request rejects — whether the encode
step or the extraction call failed, and whatever the underlying error
detail was — the component is caught by the orchestrator's handler and
lands in the failed configuration: the static non-empty error message is
shown, the loading flag is cleared, and the extracted-text slot is empty,
so no partial result is ever displayed. -/
theorem C7_thm (s s' : AppState) (req : Nat) (detail : String)
    (hreach : Reachable s)
    (h : step s (Event.resolveErr req detail) = some s') :
    s'.error = some extractionErrorMsg ∧
    extractionErrorMsg ≠ "" ∧
    s'.extractedText = "" ∧
    s'.isLoading = false ∧
    s'.pending = [] := by
  obtain ⟨h1, h2, h3⟩ := stateInv_reachable s hreach
  simp only [step] at h
  by_cases hm : req ∈ s.pending
  · rw [if_pos hm] at h
    injection h with h
    have hne : s.pending ≠ [] := by
      intro hp
      rw [hp] at hm
      cases hm
    have htext : s.extractedText = "" := h3 (h2.mpr hne)
    have hp : s.pending = [req] := pending_singleton h1 hm
    subst h
    refine ⟨rfl, by decide, htext, rfl, by simp [hp]⟩
  · rw [if_neg hm] at h
    exact Option.noConfusion h

/-- The state reached when the in-flight request of `loadingState`
rejects. -/
def failedState : AppState :=
  { imageFile := some 0, imageUrl := some 0, extractedText := "", isLoading := false,
    error := some extractionErrorMsg, pending := [] }

/-- Witness for C7: the concrete in-flight state whose request rejects
with some underlying detail. -/
theorem C7_witness :
    Reachable loadingState ∧
    step loadingState (Event.resolveErr 0 "network failure") = some failedState ∧
    (failedState.error = some extractionErrorMsg ∧
     extractionErrorMsg ≠ "" ∧
     failedState.extractedText = "" ∧
     failedState.isLoading = false ∧
     failedState.pending = []) :=
  ⟨loadingState_reachable, by decide,
   C7_thm loadingState failedState 0 "network failure" loadingState_reachable (by decide)⟩

/-- C2: the claim predicts that selecting a new image while a request is
pending moves the component to idle at once and that the stale response
is discarded on arrival. On the concrete trace select image 0, trigger,
select image 1, the loading flag is still set after the new selection;
and when the request issued for image 0 then fulfils, its text is written
to the display even though image 1 is the current selection — the code
has no request token or generation counter, so the stale response is
rendered. -/
theorem C2_counterexample :
    (runEvents initialState
      [Event.select 0, Event.trigger, Event.select 1]).isLoading = true ∧
    (runEvents initialState
      [Event.select 0, Event.trigger, Event.select 1,
       Event.resolveOk 0 "stale A text"]).extractedText = "stale A text" ∧
    (runEvents initialState
      [Event.select 0, Event.trigger, Event.select 1,
       Event.resolveOk 0 "stale A text"]).imageFile = some 1 := by
  refine ⟨by decide, by decide, by decide⟩

/-- C2 (amended): selecting a new image while an extraction request is
pending clears the displayed text and error but does NOT transition the
component to idle (the loading flag keeps its value and the request stays
in flight), and the stale in-flight response IS applied to the displayed
state when it resolves: its text is rendered against the newly selected
image. -/
theorem C2_thm (s : AppState) (img req : Nat) (r : String)
    (hreq : req ∈ s.pending) :
    ∃ s1 s2,
      step s (Event.select img) = some s1 ∧
      s1.isLoading = s.isLoading ∧
      s1.extractedText = "" ∧
      s1.error = none ∧
      req ∈ s1.pending ∧
      step s1 (Event.resolveOk req r) = some s2 ∧
      s2.extractedText = r ∧
      s2.imageFile = some img := by
  have hreq1 : req ∈ (handleImageSelect s img).pending := hreq
  refine ⟨handleImageSelect s img,
    { handleImageSelect s img with
        pending := (handleImageSelect s img).pending.erase req
        extractedText := r
        isLoading := false },
    rfl, rfl, rfl, rfl, hreq1, ?_, rfl, rfl⟩
  simp only [step]
  rw [if_pos hreq1]

/-- Witness for C2: from the concrete in-flight state, selecting image 1
and then letting the pending request fulfil with the stale text. -/
theorem C2_witness :
    0 ∈ loadingState.pending ∧
    (∃ s1 s2,
      step loadingState (Event.select 1) = some s1 ∧
      s1.isLoading = loadingState.isLoading ∧
      s1.extractedText = "" ∧
      s1.error = none ∧
      0 ∈ s1.pending ∧
      step s1 (Event.resolveOk 0 "stale") = some s2 ∧
      s2.extractedText = "stale" ∧
      s2.imageFile = some 1) :=
  ⟨by decide, C2_thm loadingState 1 0 "stale" (by decide)⟩
